import Mathlib

/-!
# File sharing with fine-grained access control: the page

A shallow embedding of `frontend/App.jsx`: the upload handler, the expiry
computation, the request list, the requests tab and the log viewer.

Strings of the page are Lean strings; the page state is a record that each
handler transforms; the transactions a handler awaits are collected in the
order in which they are issued.
-/

namespace FileSharing

/-! ## JavaScript values -/

/-- A JavaScript number as the page computes it: `NaN` or an integer. -/
inductive JsNumber where
  | nan
  | int (v : Int)
  deriving DecidableEq, Repr

/-- Truthiness of a value that is a boolean or `undefined` (`none`). -/
def truthy : Option Bool → Bool
  | some b => b
  | none => false

/-- White space and line terminators of ECMAScript, the characters that
`String.prototype.trim` removes. -/
def isJsWhiteSpace (c : Char) : Bool :=
  let n := c.toNat
  n == 0x09 || n == 0x0A || n == 0x0B || n == 0x0C || n == 0x0D || n == 0x20 ||
  n == 0xA0 || n == 0x1680 || (0x2000 ≤ n && n ≤ 0x200A) || n == 0x2028 ||
  n == 0x2029 || n == 0x202F || n == 0x205F || n == 0x3000 || n == 0xFEFF

/-- The characters of `s.trim()`. -/
def trimChars (s : List Char) : List Char :=
  ((s.dropWhile isJsWhiteSpace).reverse.dropWhile isJsWhiteSpace).reverse

/-- The method `s.trim()`. -/
def jsTrim (s : String) : String :=
  String.mk (trimChars s.data)

/-- The pieces of `s.split(",")` as character lists: there is always at least
one piece, and the empty text has the single empty piece. -/
def splitCommaChars : List Char → List (List Char)
  | [] => [[]]
  | c :: cs =>
    if c = ',' then [] :: splitCommaChars cs
    else
      match splitCommaChars cs with
      | [] => [[c]]
      | p :: ps => (c :: p) :: ps

/-- The method `s.split(",")`. -/
def jsSplitComma (s : String) : List String :=
  (splitCommaChars s.data).map String.mk

/-! ## The contract interface seen from the page -/

/-- The state-changing contract methods that the page awaits. -/
inductive ContractCall where
  | registerFile (cid : String) (visibility : Nat) (shareList : List String)
  | grantTimedAccess (cid : String) (grantee : String) (durationSeconds : Int)
  | requestAccess (cid : String)
  | decideAccessRequest (index : Nat) (approve : Bool)
  deriving DecidableEq, Repr

/-- The constant `VISIBILITY`. -/
def VISIBILITY.PRIVATE : Nat := 0

/-- The constant `VISIBILITY`. -/
def VISIBILITY.PUBLIC : Nat := 1

/-- The constant `VISIBILITY`. -/
def VISIBILITY.SHARE_ON_REQUEST : Nat := 2

/-- A file chosen in the file input. -/
structure File where
  name : String
  bytes : List Nat
  deriving DecidableEq, Repr

/-- One element of the list `formatted` of `loadAllData`. A field that is read
past the last element of its response list is `undefined`, here `none`. -/
structure RequestRecord where
  cid : String
  requester : Option String
  approved : Option Bool
  decided : Option Bool
  index : Nat
  deriving DecidableEq, Repr

/-- One element of `logs`. -/
structure LogEntry where
  event : String
  time : String
  deriving DecidableEq, Repr

/-- The `useState` cells of `App`. -/
structure AppState where
  loggedIn : Bool
  activeTab : String
  walletInput : String
  currentUser : String
  file : Option File
  visibility : Nat
  shareAddressesText : String
  expiryDate : String
  expiryTime : String
  loading : Bool
  myFiles : List String
  publicFiles : List String
  sharedFiles : List String
  sharedWithMe : List String
  accessRequests : List RequestRecord
  showLogs : Bool
  selectedCid : String
  logs : List LogEntry
  deriving DecidableEq, Repr

/-- What the handlers take from outside the page: the libraries, the clock and
the outcome of transactions. -/
structure Env where
  /-- The function `ethers.utils.isAddress`. -/
  isAddress : String → Bool
  /-- The call `ipfs.add(file)`: the `path` of the result, or the message of
  the error thrown. -/
  ipfsAdd : File → Except String String
  /-- The value `new Date(text).getTime()` in milliseconds; `none` is the
  `NaN` of an invalid date. -/
  dateGetTime : String → Option Int
  /-- The value `new Date().getTime()` when `calculateSeconds` runs. -/
  now : Int
  /-- Awaiting a transaction and its `wait()`: `none` when it is mined, the
  message of the error when it throws. The first argument lists the
  transactions of this handler that were mined before. -/
  send : List ContractCall → ContractCall → Option String
  /-- The rendering `new Date(ms).toLocaleString()`. -/
  toLocaleString : Int → String

/-! ## Time calculation -/

/-- The function `calculateSeconds`: the number returned and the alerts shown. -/
def calculateSeconds (env : Env) (st : AppState) : JsNumber × List String :=
  if st.expiryDate = "" ∨ st.expiryTime = "" then (.int 0, [])
  else
    match env.dateGetTime (st.expiryDate ++ "T" ++ st.expiryTime ++ ":00") with
    | none => (.nan, [])
    | some expiry =>
      let diff := Int.fdiv (expiry - env.now) 1000
      if diff ≤ 0 then (.int (-1), ["Expiry must be in the future"])
      else (.int diff, [])

/-! ## Upload -/

/-- The list `addresses` of `handleUpload`. -/
def parseAddresses (env : Env) (shareAddressesText : String) : List String :=
  if jsTrim shareAddressesText = "" then []
  else ((jsSplitComma shareAddressesText).map jsTrim).filter env.isAddress

/-- The loop over `addresses` in `handleUpload`: the transactions issued, and
the message of the error that stopped the loop, if one did. -/
def grantLoop (env : Env) (cid : String) (seconds : Int) :
    List String → List ContractCall → List ContractCall × Option String
  | [], done => (done, none)
  | addr :: rest, done =>
    let call := ContractCall.grantTimedAccess cid addr seconds
    match env.send done call with
    | some msg => (done ++ [call], some msg)
    | none => grantLoop env cid seconds rest (done ++ [call])

/-- The effects of one run of `handleUpload`. -/
structure UploadResult where
  /-- The page state when the handler has finished. -/
  state : AppState
  /-- The transactions issued, in order. -/
  calls : List ContractCall
  /-- The alerts shown, in order. -/
  alerts : List String
  /-- Whether `loadAllData(currentUser)` was started. -/
  reloaded : Bool
  deriving DecidableEq, Repr

/-- The result of `handleUpload` once `registerFile` is mined: the branch on
`seconds`. -/
def afterRegister (env : Env) (st : AppState) (cid : String)
    (addresses : List String) (register : ContractCall) : UploadResult :=
  let (seconds, alerts) := calculateSeconds env st
  if seconds = .int (-1) then
    { state := { st with loading := false }, calls := [register],
      alerts := alerts, reloaded := false }
  else
    let (calls, err) :=
      match seconds with
      | .int s => if 0 < s then grantLoop env cid s addresses [register] else ([register], none)
      | .nan => ([register], none)
    match err with
    | some msg =>
      { state := { st with loading := false }, calls := calls,
        alerts := alerts ++ [msg], reloaded := false }
    | none =>
      { state := { st with file := none, shareAddressesText := "", expiryDate := "",
                           expiryTime := "", loading := false },
        calls := calls, alerts := alerts ++ ["File uploaded & registered"],
        reloaded := true }

/-- The handler `handleUpload`. -/
def handleUpload (env : Env) (st : AppState) : UploadResult :=
  match st.file with
  | none => { state := st, calls := [], alerts := ["Select a file"], reloaded := false }
  | some file =>
    match env.ipfsAdd file with
    | .error msg =>
      { state := { st with loading := false }, calls := [], alerts := [msg],
        reloaded := false }
    | .ok cid =>
      let addresses := parseAddresses env st.shareAddressesText
      let register := ContractCall.registerFile cid st.visibility addresses
      match env.send [] register with
      | some msg =>
        { state := { st with loading := false }, calls := [register], alerts := [msg],
          reloaded := false }
      | none => afterRegister env st cid addresses register

/-! ## Load data -/

/-- The answers of the read-only contract methods that `loadAllData` awaits. -/
structure Queries where
  getUserFiles : String → List String
  getFilesByVisibility : Nat → List String
  getSharedWithMe : String → List String
  /-- The four parallel lists `req[0]`, `req[1]`, `req[2]`, `req[3]`. -/
  getAccessRequests : String → List String × List String × List Bool × List Bool

/-- The list `formatted` of `loadAllData`: `req[0].map((cid, i) => ...)`. -/
def formatRequests (req : List String × List String × List Bool × List Bool) :
    List RequestRecord :=
  req.1.mapIdx fun i cid =>
    { cid := cid, requester := req.2.1[i]?, approved := req.2.2.1[i]?,
      decided := req.2.2.2[i]?, index := i }

/-- The function `loadAllData`. -/
def loadAllData (q : Queries) (st : AppState) (addr : String) : AppState :=
  { st with
    myFiles := q.getUserFiles addr
    publicFiles := q.getFilesByVisibility VISIBILITY.PUBLIC
    sharedFiles := q.getFilesByVisibility VISIBILITY.SHARE_ON_REQUEST
    sharedWithMe := q.getSharedWithMe addr
    accessRequests := formatRequests (q.getAccessRequests addr) }

/-! ## Requests -/

/-- The transaction that `decideRequest(index, approve)` awaits. -/
def decideRequest (index : Nat) (approve : Bool) : ContractCall :=
  ContractCall.decideAccessRequest index approve

/-- A button of a request card with the transaction its click issues. -/
structure Button where
  className : String
  label : String
  onClick : ContractCall
  deriving DecidableEq, Repr

/-- One `request-card` of the requests tab. -/
structure RequestCard where
  key : Nat
  cid : String
  buttons : List Button
  deriving DecidableEq, Repr

/-- The card rendered for one record: the buttons stand under `!r.decided`. -/
def requestCard (r : RequestRecord) : RequestCard :=
  { key := r.index
    cid := r.cid
    buttons :=
      if !truthy r.decided then
        [ { className := "accept", label := "Accept", onClick := decideRequest r.index true },
          { className := "reject", label := "Reject", onClick := decideRequest r.index false } ]
      else [] }

/-- The cards of the requests tab: `accessRequests.map(...)` when the active
tab is `requests`, nothing otherwise. -/
def requestsTab (st : AppState) : List RequestCard :=
  if st.activeTab = "requests" then st.accessRequests.map requestCard else []

/-! ## Logs -/

/-- The four events of the contract. -/
inductive EventKind where
  | FileRegistered
  | AccessRequested
  | AccessGranted
  | AccessRevoked
  deriving DecidableEq, Repr

/-- The name that `parseLog` gives to a log. -/
def EventKind.name : EventKind → String
  | .FileRegistered => "FileRegistered"
  | .AccessRequested => "AccessRequested"
  | .AccessGranted => "AccessGranted"
  | .AccessRevoked => "AccessRevoked"

/-- A recorded event: its place in the ledger, its kind, the cid and actor it
names, and the timestamp of its block in seconds. -/
structure Event where
  sequence : Nat
  kind : EventKind
  cid : String
  actor : String
  timestamp : Nat
  deriving DecidableEq, Repr

/-- The call `provider.getLogs` for the filter of one event kind and one cid
from block 0 to the latest block: the matching events in ledger order. -/
def getLogs (ledger : List Event) (kind : EventKind) (cid : String) : List Event :=
  ledger.filter fun e => decide (e.kind = kind) && decide (e.cid = cid)

/-- The array `filters` of `openLogs`, by event kind. -/
def logFilters : List EventKind :=
  [.FileRegistered, .AccessRequested, .AccessGranted, .AccessRevoked]

/-- The events behind `collected`, in the order in which `openLogs` pushes
their entries: filter after filter, and within a filter in the order of
`getLogs`. -/
def collectedEvents (ledger : List Event) (cid : String) : List Event :=
  logFilters.flatMap fun kind => getLogs ledger kind cid

/-- The entry pushed for one log. -/
def logEntry (env : Env) (e : Event) : LogEntry :=
  { event := e.kind.name, time := env.toLocaleString ((e.timestamp : Int) * 1000) }

/-- The function `openLogs`. -/
def openLogs (env : Env) (ledger : List Event) (st : AppState) (cid : String) : AppState :=
  { st with
    selectedCid := cid
    logs := (collectedEvents ledger cid).map (logEntry env)
    showLogs := true }

/-! ## Concrete inputs -/

/-- The part of `ethers.utils.isAddress` on lower-case text: `0x` followed by
40 hexadecimal digits `0-9a-f` is an address. -/
def isLowerHexAddress (s : String) : Bool :=
  s.length == 42 && s.data.take 2 == ['0', 'x'] &&
    (s.data.drop 2).all fun c => c.isDigit || ('a' ≤ c && c ≤ 'f')

/-- The account that is logged in in the examples. -/
def ownerAddr : String := "0x1111111111111111111111111111111111111111"

/-- A second account. -/
def secondAddr : String := "0x2222222222222222222222222222222222222222"

/-- A third account. -/
def thirdAddr : String := "0x3333333333333333333333333333333333333333"

/-- An environment in which every transaction is mined, the file is added
under the cid `QmReport`, and the expiry `2030-01-01T10:00:00` is the instant
1893492000000 ms; the clock is a parameter. -/
def envAt (now : Int) : Env :=
  { isAddress := isLowerHexAddress
    ipfsAdd := fun _ => .ok "QmReport"
    dateGetTime := fun s => if s = "2030-01-01T10:00:00" then some 1893492000000 else none
    now := now
    send := fun _ _ => none
    toLocaleString := fun ms => toString ms }

/-- The page after login with the upload form filled in: a file, the share
text and the expiry `2030-01-01` at `10:00`. -/
def formState (shareAddressesText : String) : AppState :=
  { loggedIn := true, activeTab := "upload", walletInput := ownerAddr,
    currentUser := ownerAddr, file := some { name := "report.pdf", bytes := [37, 80, 68, 70] },
    visibility := VISIBILITY.PRIVATE, shareAddressesText := shareAddressesText,
    expiryDate := "2030-01-01", expiryTime := "10:00", loading := false,
    myFiles := [], publicFiles := [], sharedFiles := [], sharedWithMe := [],
    accessRequests := [], showLogs := false, selectedCid := "", logs := [] }

/-- A share text with two accounts. -/
def twoAccountsText : String :=
  "0x2222222222222222222222222222222222222222, 0x3333333333333333333333333333333333333333"

/-- A share text that names the owner twice. -/
def ownerTwiceText : String :=
  "0x1111111111111111111111111111111111111111,0x1111111111111111111111111111111111111111"

/-- Contract answers with two access requests, the first decided and
approved, the second undecided. -/
def sampleQueries : Queries :=
  { getUserFiles := fun _ => ["QmReport"]
    getFilesByVisibility := fun _ => []
    getSharedWithMe := fun _ => []
    getAccessRequests := fun _ =>
      (["QmReport", "QmReport"], [secondAddr, thirdAddr], [true, false], [true, false]) }

/-- A history of one file: registered, requested by the second account,
granted to it, then requested by the third account. -/
def sampleHistory : List Event :=
  [ { sequence := 0, kind := .FileRegistered, cid := "QmReport", actor := ownerAddr, timestamp := 1000 },
    { sequence := 1, kind := .AccessRequested, cid := "QmReport", actor := secondAddr, timestamp := 1010 },
    { sequence := 2, kind := .AccessGranted, cid := "QmReport", actor := secondAddr, timestamp := 1020 },
    { sequence := 3, kind := .AccessRequested, cid := "QmReport", actor := thirdAddr, timestamp := 1030 } ]

/-! ## The request list -/

/-- The list `formatted` has one record per cid of the response. -/
theorem formatRequests_length (req : List String × List String × List Bool × List Bool) :
    (formatRequests req).length = req.1.length := by
  simp [formatRequests]

/-- Record `i` of `formatted` is built from element `i` of each response list. -/
theorem formatRequests_getElem? (req : List String × List String × List Bool × List Bool)
    (i : Nat) :
    (formatRequests req)[i]? =
      (req.1[i]?).map fun cid =>
        { cid := cid, requester := req.2.1[i]?, approved := req.2.2.1[i]?,
          decided := req.2.2.2[i]?, index := i } := by
  simp [formatRequests, List.getElem?_mapIdx]

/-- The indices of `formatted` count up from zero. -/
theorem formatRequests_index (req : List String × List String × List Bool × List Bool) :
    (formatRequests req).map (fun r => r.index) = List.range req.1.length := by
  apply List.ext_getElem?
  intro i
  rw [List.getElem?_map, formatRequests_getElem?]
  by_cases hi : i < req.1.length
  · simp [List.getElem?_eq_getElem hi, List.getElem?_range hi]
  · have h1 : req.1[i]? = none := List.getElem?_eq_none (by omega)
    have h2 : (List.range req.1.length)[i]? = none :=
      List.getElem?_eq_none (by simp; omega)
    simp [h1, h2]

/-- Every record of `formatted` carries, as its decided flag, what the list of
decided flags of the response holds at the index of the record. -/
theorem formatRequests_decided (req : List String × List String × List Bool × List Bool)
    (r : RequestRecord) (hr : r ∈ formatRequests req) :
    r.decided = req.2.2.2[r.index]? := by
  obtain ⟨i, hi⟩ := List.mem_iff_getElem?.mp hr
  rw [formatRequests_getElem?] at hi
  cases hc : req.1[i]? with
  | none =>
    rw [hc] at hi
    simp at hi
  | some cid =>
    rw [hc] at hi
    simp only [Option.map_some', Option.some.injEq] at hi
    subst hi
    rfl

/-- C2: for a response of four parallel lists of equal length n, `loadAllData`
stores exactly n request records; record i has the cid, requester, approved
flag and decided flag found at position i of the four lists and the index i,
so the indices are 0..n-1 in the order of the response and pairwise distinct. -/
theorem loadAllData_requests (q : Queries) (st : AppState) (addr : String)
    (cids requesters : List String) (approved decided : List Bool)
    (hq : q.getAccessRequests addr = (cids, requesters, approved, decided))
    (hr : requesters.length = cids.length) (ha : approved.length = cids.length)
    (hd : decided.length = cids.length) :
    (loadAllData q st addr).accessRequests.length = cids.length ∧
    (∀ (i : Nat) (hi : i < cids.length),
      (loadAllData q st addr).accessRequests[i]? =
        some { cid := cids[i], requester := some requesters[i],
               approved := some approved[i], decided := some decided[i], index := i }) ∧
    (loadAllData q st addr).accessRequests.map (fun r => r.index) = List.range cids.length ∧
    ((loadAllData q st addr).accessRequests.map (fun r => r.index)).Nodup := by
  have hreq : (loadAllData q st addr).accessRequests =
      formatRequests (cids, requesters, approved, decided) := by
    simp [loadAllData, hq]
  rw [hreq]
  refine ⟨by simp [formatRequests_length], ?_, by simp [formatRequests_index], ?_⟩
  · intro i hi
    rw [formatRequests_getElem?]
    simp [List.getElem?_eq_getElem, hi, hr, ha, hd]
  · rw [formatRequests_index]
    exact List.nodup_range _

/-- The request list is built as C2 states on the sample response of two
requests. -/
theorem loadAllData_requests_witness :
    sampleQueries.getAccessRequests ownerAddr =
      (["QmReport", "QmReport"], [secondAddr, thirdAddr], [true, false], [true, false]) ∧
    (loadAllData sampleQueries (formState "") ownerAddr).accessRequests.length = 2 ∧
    (loadAllData sampleQueries (formState "") ownerAddr).accessRequests.map (fun r => r.index) =
      List.range 2 :=
  ⟨rfl,
   (loadAllData_requests sampleQueries (formState "") ownerAddr
      ["QmReport", "QmReport"] [secondAddr, thirdAddr] [true, false] [true, false]
      rfl rfl rfl rfl).1,
   (loadAllData_requests sampleQueries (formState "") ownerAddr
      ["QmReport", "QmReport"] [secondAddr, thirdAddr] [true, false] [true, false]
      rfl rfl rfl rfl).2.2.1⟩

/-! ## The requests tab -/

/-- The buttons of a card, by the page test `!r.decided`. -/
theorem requestCard_buttons (r : RequestRecord) :
    (requestCard r).buttons =
      if truthy r.decided = false then
        [ { className := "accept", label := "Accept",
            onClick := ContractCall.decideAccessRequest r.index true },
          { className := "reject", label := "Reject",
            onClick := ContractCall.decideAccessRequest r.index false } ]
      else [] := by
  unfold requestCard decideRequest
  cases truthy r.decided <;> simp

/-- C7: in every page state the requests tab shows the cards of the loaded
request records, one per record. For every record r, whatever response it was
formatted from, the card offers the accept and reject buttons if and only if
`r.decided` is false under the test `!r.decided` of the page; the accept
button calls `decideAccessRequest` with `r.index` and true, the reject button
with `r.index` and false, and there is no other button. A record loaded as
decided has no button, so no click submits a decision for a request whose
decided flag in the response is true. -/
theorem requestsTab_actions (q : Queries) (st : AppState) (addr : String) :
    (∀ s : AppState, ∀ card ∈ requestsTab s,
      ∃ r ∈ s.accessRequests, card = requestCard r) ∧
    (∀ s : AppState, s.activeTab = "requests" →
      requestsTab s = s.accessRequests.map requestCard) ∧
    (∀ r ∈ (loadAllData q st addr).accessRequests,
      r.decided = (q.getAccessRequests addr).2.2.2[r.index]?) ∧
    ∀ r : RequestRecord,
      ((requestCard r).buttons ≠ [] ↔ truthy r.decided = false) ∧
      (r.decided = some false → (requestCard r).buttons ≠ []) ∧
      (r.decided = some true → (requestCard r).buttons = []) ∧
      (truthy r.decided = false →
        (requestCard r).buttons =
          [ { className := "accept", label := "Accept",
              onClick := ContractCall.decideAccessRequest r.index true },
            { className := "reject", label := "Reject",
              onClick := ContractCall.decideAccessRequest r.index false } ]) ∧
      (∀ b ∈ (requestCard r).buttons,
        r.decided ≠ some true ∧
        ((b.className = "accept" ∧ b.onClick = ContractCall.decideAccessRequest r.index true) ∨
         (b.className = "reject" ∧
           b.onClick = ContractCall.decideAccessRequest r.index false))) := by
  refine ⟨?_, ?_, ?_, ?_⟩
  · intro s card hcard
    unfold requestsTab at hcard
    by_cases htab : s.activeTab = "requests"
    · rw [if_pos htab, List.mem_map] at hcard
      obtain ⟨r, hr, hc⟩ := hcard
      exact ⟨r, hr, hc.symm⟩
    · rw [if_neg htab] at hcard
      exact absurd hcard (by simp)
  · intro s htab
    unfold requestsTab
    rw [if_pos htab]
  · intro r hmem
    exact formatRequests_decided (q.getAccessRequests addr) r hmem
  · intro r
    have hbtn := requestCard_buttons r
    cases ht : truthy r.decided with
    | false =>
      rw [ht] at hbtn
      simp only [if_true] at hbtn
      refine ⟨by simp [hbtn], fun _ => by simp [hbtn], ?_, fun _ => hbtn, ?_⟩
      · intro hd
        rw [hd] at ht
        simp [truthy] at ht
      · intro b hb
        refine ⟨?_, ?_⟩
        · intro hd
          rw [hd] at ht
          simp [truthy] at ht
        · rw [hbtn] at hb
          simp only [List.mem_cons, List.mem_singleton, List.not_mem_nil, or_false] at hb
          rcases hb with hb | hb
          · exact Or.inl (by simp [hb])
          · exact Or.inr (by simp [hb])
    | true =>
      rw [ht] at hbtn
      simp only [Bool.true_eq_false, if_false] at hbtn
      refine ⟨by simp [hbtn], ?_, fun _ => hbtn, fun h => absurd h (by simp), ?_⟩
      · intro hd
        rw [hd] at ht
        simp [truthy] at ht
      · intro b hb
        rw [hbtn] at hb
        exact absurd hb (by simp)

/-- On the sample response the requests tab shows two cards; the first
request is decided and has no button, the second is undecided and has the
accept and the reject button for index 1. -/
theorem requestsTab_actions_witness :
    (requestsTab (loadAllData sampleQueries
        { formState "" with activeTab := "requests" } ownerAddr)).map
      (fun card => card.buttons.map fun b => b.onClick) =
      [[], [ContractCall.decideAccessRequest 1 true, ContractCall.decideAccessRequest 1 false]] ∧
    requestsTab (loadAllData sampleQueries
        { formState "" with activeTab := "requests" } ownerAddr) =
      (loadAllData sampleQueries
        { formState "" with activeTab := "requests" } ownerAddr).accessRequests.map requestCard ∧
    (requestCard { cid := "QmReport", requester := some thirdAddr, approved := some false,
                   decided := some false, index := 1 }).buttons ≠ [] ∧
    (requestCard { cid := "QmReport", requester := some secondAddr, approved := some true,
                   decided := some true, index := 0 }).buttons = [] :=
  ⟨by decide,
   (requestsTab_actions sampleQueries (formState "") ownerAddr).2.1
      (loadAllData sampleQueries { formState "" with activeTab := "requests" } ownerAddr) rfl,
   ((requestsTab_actions sampleQueries (formState "") ownerAddr).2.2.2
      { cid := "QmReport", requester := some thirdAddr, approved := some false,
        decided := some false, index := 1 }).2.1 rfl,
   ((requestsTab_actions sampleQueries (formState "") ownerAddr).2.2.2
      { cid := "QmReport", requester := some secondAddr, approved := some true,
        decided := some true, index := 0 }).2.2.1 rfl⟩

/-! ## The expiry computation -/

/-- C6 fails as stated: an expiry that lies half a second after the current
instant is strictly in the future, and `calculateSeconds` rejects it. -/
theorem calculateSeconds_rejects_near_future :
    (envAt 1893491999500).dateGetTime
        ((formState "").expiryDate ++ "T" ++ (formState "").expiryTime ++ ":00") =
      some 1893492000000 ∧
    (envAt 1893491999500).now < 1893492000000 ∧
    calculateSeconds (envAt 1893491999500) (formState "") =
      (.int (-1), ["Expiry must be in the future"]) := by
  decide

/-- C6, amended: when the date and the time are set and give a valid instant,
`calculateSeconds` rejects the expiry (alert and -1) if and only if the expiry
is less than 1000 ms after the current instant; for every expiry at least
1000 ms after the current instant it returns, without an alert, the positive
number of whole seconds between the two instants. -/
theorem calculateSeconds_whole_seconds (env : Env) (st : AppState) (expiry : Int)
    (hdate : st.expiryDate ≠ "") (htime : st.expiryTime ≠ "")
    (hparse : env.dateGetTime (st.expiryDate ++ "T" ++ st.expiryTime ++ ":00") = some expiry) :
    (calculateSeconds env st = (.int (-1), ["Expiry must be in the future"]) ↔
      expiry < env.now + 1000) ∧
    ((calculateSeconds env st).1 = .int (-1) ↔ expiry < env.now + 1000) ∧
    (env.now + 1000 ≤ expiry →
      ∃ d : Int, 0 < d ∧ calculateSeconds env st = (.int d, []) ∧
        1000 * d ≤ expiry - env.now ∧ expiry - env.now < 1000 * (d + 1)) := by
  have hfd : Int.fdiv (expiry - env.now) 1000 = (expiry - env.now) / 1000 :=
    Int.fdiv_eq_ediv _ (by decide)
  have hcs : calculateSeconds env st =
      if (expiry - env.now) / 1000 ≤ 0 then (.int (-1), ["Expiry must be in the future"])
      else (.int ((expiry - env.now) / 1000), []) := by
    simp [calculateSeconds, hdate, htime, hparse, hfd]
  rw [hcs]
  by_cases hle : (expiry - env.now) / 1000 ≤ 0
  · have hlt : expiry < env.now + 1000 := by omega
    simp only [hle, if_true]
    refine ⟨by simp [hlt], by simp [hlt], ?_⟩
    intro h
    omega
  · have hge : ¬ expiry < env.now + 1000 := by omega
    simp only [hle, if_false]
    refine ⟨by simp [hge], ?_, ?_⟩
    · simp only [JsNumber.int.injEq, hge, iff_false]
      omega
    · intro _
      exact ⟨(expiry - env.now) / 1000, by omega, rfl, by omega, by omega⟩

/-- One minute before the expiry `calculateSeconds` returns 60. -/
theorem calculateSeconds_whole_seconds_witness :
    (formState "").expiryDate ≠ "" ∧ (formState "").expiryTime ≠ "" ∧
    ((calculateSeconds (envAt 1893491940000) (formState "")).1 = .int (-1) ↔
      (1893492000000 : Int) < (envAt 1893491940000).now + 1000) :=
  ⟨by decide, by decide,
   (calculateSeconds_whole_seconds (envAt 1893491940000) (formState "") 1893492000000
      (by decide) (by decide) (by decide)).2.1⟩

/-- A return value of -1 comes with the alert, with both fields set and with
an expiry less than one second after the current instant. -/
theorem calculateSeconds_rejected (env : Env) (st : AppState)
    (h : (calculateSeconds env st).1 = .int (-1)) :
    calculateSeconds env st = (.int (-1), ["Expiry must be in the future"]) ∧
    st.expiryDate ≠ "" ∧ st.expiryTime ≠ "" ∧
    ∃ expiry, env.dateGetTime (st.expiryDate ++ "T" ++ st.expiryTime ++ ":00") = some expiry ∧
      expiry < env.now + 1000 := by
  unfold calculateSeconds at h ⊢
  by_cases hset : st.expiryDate = "" ∨ st.expiryTime = ""
  · simp [hset] at h
  · simp only [hset, if_false] at h ⊢
    have hd : st.expiryDate ≠ "" := fun hc => hset (Or.inl hc)
    have ht : st.expiryTime ≠ "" := fun hc => hset (Or.inr hc)
    cases hp : env.dateGetTime (st.expiryDate ++ "T" ++ st.expiryTime ++ ":00") with
    | none => simp [hp] at h
    | some expiry =>
      simp only [hp] at h ⊢
      have hfd : Int.fdiv (expiry - env.now) 1000 = (expiry - env.now) / 1000 :=
        Int.fdiv_eq_ediv _ (by decide)
      rw [hfd] at h ⊢
      by_cases hle : (expiry - env.now) / 1000 ≤ 0
      · simp only [hle, if_true]
        exact ⟨trivial, hd, ht, expiry, rfl, by omega⟩
      · simp only [hle, if_false, JsNumber.int.injEq] at h
        omega

/-- The value 0 is returned exactly when the date or the time is unset. -/
theorem calculateSeconds_zero_iff (env : Env) (st : AppState) :
    (calculateSeconds env st).1 = .int 0 ↔ (st.expiryDate = "" ∨ st.expiryTime = "") := by
  unfold calculateSeconds
  by_cases hset : st.expiryDate = "" ∨ st.expiryTime = ""
  · simp [hset]
  · simp only [hset, if_false, iff_false]
    cases hp : env.dateGetTime (st.expiryDate ++ "T" ++ st.expiryTime ++ ":00") with
    | none => simp
    | some expiry =>
      simp only
      by_cases hle : Int.fdiv (expiry - env.now) 1000 ≤ 0
      · simp [hle]
      · simp only [hle, if_false, JsNumber.int.injEq]
        omega

/-! ## Upload -/

/-- A transaction of the grant loop was issued before the loop, or it grants
the given number of seconds to one of the addresses of the loop. -/
theorem grantLoop_mem (env : Env) (cid : String) (s : Int) (c : ContractCall) :
    ∀ (addrs : List String) (done : List ContractCall),
      c ∈ (grantLoop env cid s addrs done).1 →
        c ∈ done ∨ ∃ a ∈ addrs, c = ContractCall.grantTimedAccess cid a s := by
  intro addrs
  induction addrs with
  | nil => intro done h; exact Or.inl (by simpa [grantLoop] using h)
  | cons a rest ih =>
    intro done h
    unfold grantLoop at h
    cases hsend : env.send done (ContractCall.grantTimedAccess cid a s) with
    | some msg =>
      simp only [hsend, List.mem_append, List.mem_singleton] at h
      rcases h with h | h
      · exact Or.inl h
      · exact Or.inr ⟨a, by simp, h⟩
    | none =>
      simp only [hsend] at h
      rcases ih _ h with h | ⟨b, hb, hc⟩
      · rcases List.mem_append.mp h with h | h
        · exact Or.inl h
        · exact Or.inr ⟨a, by simp, by simpa using h⟩
      · exact Or.inr ⟨b, by simp [hb], hc⟩

/-- The grant loop either issues one grant per address, in order, or stops at
a grant whose transaction throws. -/
theorem grantLoop_shape (env : Env) (cid : String) (s : Int) :
    ∀ (addrs : List String) (done : List ContractCall),
      grantLoop env cid s addrs done =
          (done ++ addrs.map (fun a => ContractCall.grantTimedAccess cid a s), none) ∨
      ∃ pre a msg,
        grantLoop env cid s addrs done =
          (pre ++ [ContractCall.grantTimedAccess cid a s], some msg) ∧
        env.send pre (ContractCall.grantTimedAccess cid a s) = some msg := by
  intro addrs
  induction addrs with
  | nil => intro done; exact Or.inl (by simp [grantLoop])
  | cons a rest ih =>
    intro done
    unfold grantLoop
    cases hsend : env.send done (ContractCall.grantTimedAccess cid a s) with
    | some msg => exact Or.inr ⟨done, a, msg, by simp only [hsend], hsend⟩
    | none =>
      simp only [hsend]
      rcases ih (done ++ [ContractCall.grantTimedAccess cid a s]) with h | ⟨pre, b, msg, h, hs⟩
      · exact Or.inl (by simp [h])
      · exact Or.inr ⟨pre, b, msg, h, hs⟩

/-- The transactions of `handleUpload` after `registerFile` is mined. -/
theorem afterRegister_calls (env : Env) (st : AppState) (cid : String)
    (addrs : List String) (reg : ContractCall) :
    (afterRegister env st cid addrs reg).calls =
      match (calculateSeconds env st).1 with
      | .int s => if 0 < s then (grantLoop env cid s addrs [reg]).1 else [reg]
      | .nan => [reg] := by
  unfold afterRegister
  rcases calculateSeconds env st with ⟨sec, al⟩
  cases sec with
  | nan => simp
  | int s =>
    by_cases hneg : s = -1
    · subst hneg; simp
    · by_cases hpos : 0 < s
      · simp only [JsNumber.int.injEq, hneg, if_false, hpos, if_true]
        rcases grantLoop env cid s addrs [reg] with ⟨calls, err⟩
        cases err <;> rfl
      · simp [hneg, hpos]

/-- The transactions of `handleUpload`, branch by branch. -/
theorem handleUpload_calls (env : Env) (st : AppState) :
    (handleUpload env st).calls =
      match st.file with
      | none => []
      | some file =>
        match env.ipfsAdd file with
        | .error _ => []
        | .ok cid =>
          match env.send []
              (.registerFile cid st.visibility (parseAddresses env st.shareAddressesText)) with
          | some _ => [.registerFile cid st.visibility (parseAddresses env st.shareAddressesText)]
          | none =>
            (afterRegister env st cid (parseAddresses env st.shareAddressesText)
              (.registerFile cid st.visibility (parseAddresses env st.shareAddressesText))).calls := by
  unfold handleUpload
  cases hf : st.file with
  | none => rfl
  | some file =>
    cases ha : env.ipfsAdd file with
    | error msg => simp only [ha]
    | ok cid =>
      cases hs : env.send []
          (.registerFile cid st.visibility (parseAddresses env st.shareAddressesText)) with
      | some msg => simp only [ha, hs]
      | none => simp only [ha, hs]

/-- A grant among the transactions of `handleUpload` carries the number that
`calculateSeconds` returned, and that number is positive. -/
theorem grant_mem_handleUpload (env : Env) (st : AppState)
    (cid grantee : String) (d : Int)
    (h : ContractCall.grantTimedAccess cid grantee d ∈ (handleUpload env st).calls) :
    0 < d ∧ d ≠ -1 ∧ (calculateSeconds env st).1 = .int d := by
  rw [handleUpload_calls] at h
  cases hf : st.file with
  | none => simp [hf] at h
  | some file =>
    cases ha : env.ipfsAdd file with
    | error msg => simp [hf, ha] at h
    | ok c =>
      simp only [hf, ha] at h
      cases hs : env.send []
          (.registerFile c st.visibility (parseAddresses env st.shareAddressesText)) with
      | some msg => simp [hs] at h
      | none =>
        simp only [hs, afterRegister_calls] at h
        cases hsec : (calculateSeconds env st).1 with
        | nan => simp [hsec] at h
        | int s =>
          simp only [hsec] at h
          by_cases hpos : 0 < s
          · simp only [hpos, if_true] at h
            rcases grantLoop_mem _ _ _ _ _ _ h with h | ⟨a, _, h⟩
            · simp at h
            · simp only [ContractCall.grantTimedAccess.injEq] at h
              obtain ⟨_, _, rfl⟩ := h
              exact ⟨hpos, by omega, rfl⟩
          · simp [hpos] at h

/-- C1: whatever the upload state, the clock, the share text and the outcome
of the transactions, every `grantTimedAccess` that `handleUpload` issues
carries a duration strictly greater than 0, which is the number returned by
`calculateSeconds`; the values 0 and -1 never reach `grantTimedAccess`. -/
theorem handleUpload_grant_duration_pos (env : Env) (st : AppState)
    (cid grantee : String) (d : Int)
    (h : ContractCall.grantTimedAccess cid grantee d ∈ (handleUpload env st).calls) :
    0 < d ∧ d ≠ 0 ∧ d ≠ -1 ∧ (calculateSeconds env st).1 = .int d := by
  obtain ⟨hpos, hneg, hsec⟩ := grant_mem_handleUpload env st cid grantee d h
  exact ⟨hpos, by omega, hneg, hsec⟩

/-- One minute before the expiry the upload grants 60 seconds to the second
account. -/
theorem handleUpload_grant_duration_pos_witness :
    ContractCall.grantTimedAccess "QmReport" secondAddr 60 ∈
      (handleUpload (envAt 1893491940000) (formState twoAccountsText)).calls ∧
    (0 : Int) < 60 ∧
    (calculateSeconds (envAt 1893491940000) (formState twoAccountsText)).1 = .int 60 :=
  ⟨by decide,
   (handleUpload_grant_duration_pos (envAt 1893491940000) (formState twoAccountsText)
      "QmReport" secondAddr 60 (by decide)).1,
   (handleUpload_grant_duration_pos (envAt 1893491940000) (formState twoAccountsText)
      "QmReport" secondAddr 60 (by decide)).2.2.2⟩

/-- With a file selected, added and registered, `handleUpload` continues with
the branch on `seconds`. -/
theorem handleUpload_eq_afterRegister (env : Env) (st : AppState) (file : File) (cid : String)
    (hfile : st.file = some file) (hadd : env.ipfsAdd file = .ok cid)
    (hreg : env.send []
      (.registerFile cid st.visibility (parseAddresses env st.shareAddressesText)) = none) :
    handleUpload env st =
      afterRegister env st cid (parseAddresses env st.shareAddressesText)
        (.registerFile cid st.visibility (parseAddresses env st.shareAddressesText)) := by
  unfold handleUpload
  simp only [hfile, hadd, hreg]

/-- C8: when a file is selected and added, `registerFile` is mined and
`calculateSeconds` returns -1, then the date and the time are both set,
`handleUpload` has issued the single transaction `registerFile(cid,
visibility, addresses)` and no `grantTimedAccess`, shows the alert of the
rejected expiry, does not reload, and leaves the file, the share text, the
expiry date and the expiry time of the form unchanged. -/
theorem handleUpload_rejected_expiry (env : Env) (st : AppState) (file : File) (cid : String)
    (hfile : st.file = some file) (hadd : env.ipfsAdd file = .ok cid)
    (hreg : env.send []
      (.registerFile cid st.visibility (parseAddresses env st.shareAddressesText)) = none)
    (hrej : (calculateSeconds env st).1 = .int (-1)) :
    (st.expiryDate ≠ "" ∧ st.expiryTime ≠ "") ∧
    (handleUpload env st).calls =
      [.registerFile cid st.visibility (parseAddresses env st.shareAddressesText)] ∧
    (∀ c g d, ContractCall.grantTimedAccess c g d ∉ (handleUpload env st).calls) ∧
    (handleUpload env st).alerts = ["Expiry must be in the future"] ∧
    (handleUpload env st).reloaded = false ∧
    (handleUpload env st).state = { st with loading := false } ∧
    (handleUpload env st).state.file = st.file ∧
    (handleUpload env st).state.shareAddressesText = st.shareAddressesText ∧
    (handleUpload env st).state.expiryDate = st.expiryDate ∧
    (handleUpload env st).state.expiryTime = st.expiryTime := by
  obtain ⟨hcs, hd, ht, _⟩ := calculateSeconds_rejected env st hrej
  have hres : handleUpload env st =
      { state := { st with loading := false },
        calls := [.registerFile cid st.visibility (parseAddresses env st.shareAddressesText)],
        alerts := ["Expiry must be in the future"], reloaded := false } := by
    rw [handleUpload_eq_afterRegister env st file cid hfile hadd hreg]
    unfold afterRegister
    rw [hcs]
    simp
  rw [hres]
  simp [hd, ht]

/-- Half a second before the expiry the upload registers the file and stops. -/
theorem handleUpload_rejected_expiry_witness :
    (calculateSeconds (envAt 1893491999500) (formState twoAccountsText)).1 = .int (-1) ∧
    (handleUpload (envAt 1893491999500) (formState twoAccountsText)).calls =
      [.registerFile "QmReport" (formState twoAccountsText).visibility
        (parseAddresses (envAt 1893491999500) (formState twoAccountsText).shareAddressesText)] ∧
    (handleUpload (envAt 1893491999500) (formState twoAccountsText)).state.file =
      (formState twoAccountsText).file :=
  ⟨by decide,
   (handleUpload_rejected_expiry (envAt 1893491999500) (formState twoAccountsText)
      { name := "report.pdf", bytes := [37, 80, 68, 70] } "QmReport" rfl rfl rfl
      (by decide)).2.1,
   (handleUpload_rejected_expiry (envAt 1893491999500) (formState twoAccountsText)
      { name := "report.pdf", bytes := [37, 80, 68, 70] } "QmReport" rfl rfl rfl
      (by decide)).2.2.2.2.2.2.1⟩

/-- C9: when a file is selected and added and every transaction that
`handleUpload` issues is mined, then with the parsed share list a1..an and the
computed seconds s the transactions are `registerFile(cid, visibility,
[a1..an])` followed by `grantTimedAccess(cid, ai, s)` for i = 1..n in order
if s > 0, and `registerFile` alone if s = 0, which is the case exactly when
the date or the time is unset; every timed grantee is on the share list
registered for the same cid and every grant carries the duration s. -/
theorem handleUpload_calls_when_mined (env : Env) (st : AppState) (file : File) (cid : String)
    (hfile : st.file = some file) (hadd : env.ipfsAdd file = .ok cid)
    (hok : ∀ pre c post, (handleUpload env st).calls = pre ++ c :: post → env.send pre c = none) :
    (∀ s : Int, (calculateSeconds env st).1 = .int s → 0 < s →
      (handleUpload env st).calls =
        .registerFile cid st.visibility (parseAddresses env st.shareAddressesText) ::
          (parseAddresses env st.shareAddressesText).map
            (fun a => ContractCall.grantTimedAccess cid a s)) ∧
    ((calculateSeconds env st).1 = .int 0 →
      (handleUpload env st).calls =
        [.registerFile cid st.visibility (parseAddresses env st.shareAddressesText)]) ∧
    ((calculateSeconds env st).1 = .int 0 ↔ (st.expiryDate = "" ∨ st.expiryTime = "")) ∧
    (∀ c g d, ContractCall.grantTimedAccess c g d ∈ (handleUpload env st).calls →
      c = cid ∧ g ∈ parseAddresses env st.shareAddressesText ∧
      (calculateSeconds env st).1 = .int d ∧
      ContractCall.registerFile cid st.visibility (parseAddresses env st.shareAddressesText) ∈
        (handleUpload env st).calls) := by
  have hcalls := handleUpload_calls env st
  simp only [hfile, hadd] at hcalls
  have hreg : env.send []
      (.registerFile cid st.visibility (parseAddresses env st.shareAddressesText)) = none := by
    cases hs : env.send []
        (.registerFile cid st.visibility (parseAddresses env st.shareAddressesText)) with
    | none => rfl
    | some msg =>
      rw [hs] at hcalls
      have := hok [] _ [] (by simpa using hcalls)
      rw [hs] at this
      exact absurd this (by simp)
  simp only [hreg, afterRegister_calls] at hcalls
  have key : ∀ s : Int, (calculateSeconds env st).1 = .int s → 0 < s →
      (handleUpload env st).calls =
        .registerFile cid st.visibility (parseAddresses env st.shareAddressesText) ::
          (parseAddresses env st.shareAddressesText).map
            (fun a => ContractCall.grantTimedAccess cid a s) := by
    intro s hs hpos
    simp only [hs, hpos, if_true] at hcalls
    rcases grantLoop_shape env cid s (parseAddresses env st.shareAddressesText)
        [.registerFile cid st.visibility (parseAddresses env st.shareAddressesText)] with
      h | ⟨pre, a, msg, h, hsend⟩
    · rw [hcalls, h]
      simp
    · rw [h] at hcalls
      have := hok pre _ [] (by simpa using hcalls)
      rw [hsend] at this
      exact absurd this (by simp)
  refine ⟨key, ?_, calculateSeconds_zero_iff env st, ?_⟩
  · intro hs
    simp [hs] at hcalls
    exact hcalls
  · intro c g d hmem
    have hpos := grant_mem_handleUpload env st c g d hmem
    rw [key d hpos.2.2 hpos.1] at hmem ⊢
    simp only [List.mem_cons, List.mem_map, ContractCall.grantTimedAccess.injEq,
      false_or] at hmem
    rcases hmem with hmem | ⟨a, ha, hc, hg, _⟩
    · exact absurd hmem (by simp)
    · exact ⟨hc.symm, hg ▸ ha, hpos.2.2, by simp⟩

/-- One minute before the expiry the upload registers the file for two
accounts and grants each of them 60 seconds. -/
theorem handleUpload_calls_when_mined_witness :
    (formState twoAccountsText).file = some { name := "report.pdf", bytes := [37, 80, 68, 70] } ∧
    (handleUpload (envAt 1893491940000) (formState twoAccountsText)).calls =
      .registerFile "QmReport" (formState twoAccountsText).visibility
          (parseAddresses (envAt 1893491940000) (formState twoAccountsText).shareAddressesText) ::
        (parseAddresses (envAt 1893491940000) (formState twoAccountsText).shareAddressesText).map
          (fun a => ContractCall.grantTimedAccess "QmReport" a 60) :=
  ⟨rfl,
   (handleUpload_calls_when_mined (envAt 1893491940000) (formState twoAccountsText)
      { name := "report.pdf", bytes := [37, 80, 68, 70] } "QmReport" rfl rfl
      (fun _ _ _ _ => rfl)).1 60 (by decide) (by decide)⟩

/-- A transaction of `handleUpload` is the registration with the parsed share
list or a grant. -/
theorem handleUpload_calls_mem (env : Env) (st : AppState) (c : ContractCall)
    (h : c ∈ (handleUpload env st).calls) :
    (∃ cid, c = .registerFile cid st.visibility (parseAddresses env st.shareAddressesText)) ∨
    ∃ cid a d, c = .grantTimedAccess cid a d := by
  rw [handleUpload_calls] at h
  cases hf : st.file with
  | none => simp [hf] at h
  | some file =>
    cases ha : env.ipfsAdd file with
    | error msg => simp [hf, ha] at h
    | ok cid =>
      simp only [hf, ha] at h
      cases hs : env.send []
          (.registerFile cid st.visibility (parseAddresses env st.shareAddressesText)) with
      | some msg =>
        simp only [hs, List.mem_singleton] at h
        exact Or.inl ⟨cid, h⟩
      | none =>
        simp only [hs, afterRegister_calls] at h
        cases hsec : (calculateSeconds env st).1 with
        | nan =>
          simp only [hsec, List.mem_singleton] at h
          exact Or.inl ⟨cid, h⟩
        | int s =>
          simp only [hsec] at h
          by_cases hpos : 0 < s
          · simp only [hpos, if_true] at h
            rcases grantLoop_mem _ _ _ _ _ _ h with h | ⟨a, _, h⟩
            · exact Or.inl ⟨cid, by simpa using h⟩
            · exact Or.inr ⟨cid, a, s, h⟩
          · simp only [hpos, if_false, List.mem_singleton] at h
            exact Or.inl ⟨cid, h⟩

/-- C4 fails as stated: for a share text that names the logged-in owner twice,
the share list passed to `registerFile` holds the owner, twice. -/
theorem handleUpload_shareList_keeps_owner_twice :
    (formState ownerTwiceText).currentUser = ownerAddr ∧
    ContractCall.registerFile "QmReport" VISIBILITY.PRIVATE [ownerAddr, ownerAddr] ∈
      (handleUpload (envAt 1893491940000) (formState ownerTwiceText)).calls ∧
    ¬ [ownerAddr, ownerAddr].Nodup ∧
    (formState ownerTwiceText).currentUser ∈ [ownerAddr, ownerAddr] := by
  decide

/-- C4, amended: the share list that `handleUpload` passes to `registerFile`
is the list `addresses`: empty for a blank share text, and otherwise the
comma-separated pieces of the text, trimmed, that `isAddress` accepts, in the
order of the text and each as often as it is written. -/
theorem handleUpload_shareList (env : Env) (st : AppState) (cid : String) (v : Nat)
    (l : List String)
    (h : ContractCall.registerFile cid v l ∈ (handleUpload env st).calls) :
    l = parseAddresses env st.shareAddressesText ∧
    (jsTrim st.shareAddressesText = "" → l = []) ∧
    (∀ a ∈ l, env.isAddress a = true ∧
      ∃ piece ∈ jsSplitComma st.shareAddressesText, a = jsTrim piece) ∧
    l.Sublist ((jsSplitComma st.shareAddressesText).map jsTrim) ∧
    (jsTrim st.shareAddressesText ≠ "" → ∀ a, env.isAddress a = true →
      l.count a = ((jsSplitComma st.shareAddressesText).map jsTrim).count a) := by
  have hl : l = parseAddresses env st.shareAddressesText := by
    rcases handleUpload_calls_mem env st _ h with ⟨c, hc⟩ | ⟨c, a, d, hc⟩
    · simp only [ContractCall.registerFile.injEq] at hc
      exact hc.2.2
    · exact absurd hc (by simp)
  refine ⟨hl, ?_, ?_, ?_, ?_⟩
  · intro hblank
    rw [hl]
    simp [parseAddresses, hblank]
  · intro a ha
    rw [hl] at ha
    unfold parseAddresses at ha
    by_cases hblank : jsTrim st.shareAddressesText = ""
    · simp [hblank] at ha
    · simp only [hblank, if_false] at ha
      rw [List.mem_filter, List.mem_map] at ha
      obtain ⟨⟨piece, hp, hpa⟩, haddr⟩ := ha
      exact ⟨haddr, piece, hp, hpa.symm⟩
  · rw [hl]
    unfold parseAddresses
    by_cases hblank : jsTrim st.shareAddressesText = ""
    · simp [hblank]
    · simp only [hblank, if_false]
      exact List.filter_sublist _
  · intro hblank a haddr
    rw [hl]
    unfold parseAddresses
    simp only [hblank, if_false]
    exact List.count_filter haddr

/-- The share list of the two-account text holds both accounts. -/
theorem handleUpload_shareList_witness :
    ContractCall.registerFile "QmReport" 0 [secondAddr, thirdAddr] ∈
      (handleUpload (envAt 1893491940000) (formState twoAccountsText)).calls ∧
    [secondAddr, thirdAddr] =
      parseAddresses (envAt 1893491940000) (formState twoAccountsText).shareAddressesText :=
  ⟨by decide,
   (handleUpload_shareList (envAt 1893491940000) (formState twoAccountsText)
      "QmReport" 0 [secondAddr, thirdAddr] (by decide)).1⟩

/-! ## Logs -/

/-- The collected events are the four answers of `getLogs`, one after the
other. -/
theorem collectedEvents_eq (ledger : List Event) (cid : String) :
    collectedEvents ledger cid =
      getLogs ledger .FileRegistered cid ++ (getLogs ledger .AccessRequested cid ++
        (getLogs ledger .AccessGranted cid ++ getLogs ledger .AccessRevoked cid)) := by
  simp [collectedEvents, logFilters]

/-- The answer of `getLogs` on a ledger with one more event in front. -/
theorem getLogs_cons (e : Event) (ledger : List Event) (kind : EventKind) (cid : String) :
    getLogs (e :: ledger) kind cid =
      if e.kind = kind ∧ e.cid = cid then e :: getLogs ledger kind cid
      else getLogs ledger kind cid := by
  unfold getLogs
  by_cases h : e.kind = kind ∧ e.cid = cid
  · simp [List.filter_cons, h.1, h.2]
  · rw [if_neg h, List.filter_cons]
    have : (decide (e.kind = kind) && decide (e.cid = cid)) = false := by
      simpa using h
    simp [this]

/-- The collected events are a rearrangement of the events of the cid. -/
theorem collectedEvents_perm (ledger : List Event) (cid : String) :
    (collectedEvents ledger cid).Perm (ledger.filter fun e => decide (e.cid = cid)) := by
  rw [collectedEvents_eq]
  induction ledger with
  | nil => simp [getLogs]
  | cons e l ih =>
    by_cases hc : e.cid = cid
    · rw [List.filter_cons_of_pos (by simpa using hc)]
      cases hk : e.kind <;> simp only [getLogs_cons, hk, hc, and_true, and_false, if_true,
        if_false, reduceCtorEq]
      · exact List.Perm.cons e ih
      · exact (List.perm_middle).trans (List.Perm.cons e ih)
      · rw [← List.append_assoc]
        refine (List.perm_middle).trans (List.Perm.cons e ?_)
        rw [List.append_assoc]
        exact ih
      · rw [← List.append_assoc, ← List.append_assoc]
        refine (List.perm_middle).trans (List.Perm.cons e ?_)
        rw [List.append_assoc, List.append_assoc]
        exact ih
    · rw [List.filter_cons_of_neg (by simpa using hc)]
      simp only [getLogs_cons, hc, and_false, if_false]
      exact ih

/-- An event is in the answer of `getLogs` exactly when it is recorded with
the kind and the cid of the filter. -/
theorem getLogs_mem (ledger : List Event) (kind : EventKind) (cid : String) (e : Event) :
    e ∈ getLogs ledger kind cid ↔ e ∈ ledger ∧ e.kind = kind ∧ e.cid = cid := by
  simp [getLogs]

/-- C5 fails as stated: in the sample history the second request is recorded
after the grant, and `openLogs` lists it before the grant, so the collected
list runs through the sequence numbers 0, 1, 3, 2. -/
theorem openLogs_not_in_ledger_order :
    sampleHistory.Pairwise (fun a b => a.sequence < b.sequence) ∧
    (collectedEvents sampleHistory "QmReport").map (fun e => e.sequence) = [0, 1, 3, 2] ∧
    ¬ ((collectedEvents sampleHistory "QmReport").map fun e => e.sequence).Pairwise
        (fun a b => a ≤ b) ∧
    (openLogs (envAt 0) sampleHistory (formState "") "QmReport").logs.map (fun l => l.event) =
      ["FileRegistered", "AccessRequested", "AccessRequested", "AccessGranted"] := by
  decide

/-- C5, amended: for a history recorded with ascending sequence numbers, the
entries that `openLogs` collects for a cid are those of the `FileRegistered`
events of the cid, then those of its `AccessRequested` events, then those of
its `AccessGranted` events, then those of its `AccessRevoked` events; within
each kind they are in ascending sequence, and the collected list contains each
recorded event of the cid exactly once. -/
theorem openLogs_collected (env : Env) (ledger : List Event) (st : AppState) (cid : String)
    (hasc : ledger.Pairwise fun a b => a.sequence < b.sequence) :
    (openLogs env ledger st cid).logs = (collectedEvents ledger cid).map (logEntry env) ∧
    collectedEvents ledger cid =
      getLogs ledger .FileRegistered cid ++ (getLogs ledger .AccessRequested cid ++
        (getLogs ledger .AccessGranted cid ++ getLogs ledger .AccessRevoked cid)) ∧
    (∀ kind : EventKind,
      (getLogs ledger kind cid).Pairwise (fun a b => a.sequence < b.sequence) ∧
      ∀ e, e ∈ getLogs ledger kind cid ↔ e ∈ ledger ∧ e.kind = kind ∧ e.cid = cid) ∧
    (collectedEvents ledger cid).Perm (ledger.filter fun e => decide (e.cid = cid)) ∧
    (collectedEvents ledger cid).Nodup := by
  refine ⟨rfl, collectedEvents_eq ledger cid, ?_, collectedEvents_perm ledger cid, ?_⟩
  · intro kind
    exact ⟨List.Pairwise.filter _ hasc, getLogs_mem ledger kind cid⟩
  · have hnd : ledger.Nodup := by
      refine List.Pairwise.imp ?_ hasc
      intro a b hlt hab
      rw [hab] at hlt
      exact Nat.lt_irrefl _ hlt
    exact (collectedEvents_perm ledger cid).nodup_iff.mpr (hnd.filter _)

/-- The sample history is recorded in ascending sequence and its four events
are collected once each. -/
theorem openLogs_collected_witness :
    sampleHistory.Pairwise (fun a b => a.sequence < b.sequence) ∧
    (collectedEvents sampleHistory "QmReport").Perm
      (sampleHistory.filter fun e => decide (e.cid = "QmReport")) ∧
    (collectedEvents sampleHistory "QmReport").Nodup :=
  ⟨by decide,
   (openLogs_collected (envAt 0) sampleHistory (formState "") "QmReport" (by decide)).2.2.2.1,
   (openLogs_collected (envAt 0) sampleHistory (formState "") "QmReport" (by decide)).2.2.2.2⟩

end FileSharing
